import Mathlib

/-!
Verification of the license-plate-detection pipeline in `src/app.py`.

The development shallowly embeds the helper functions of the script:
`is_similar`, `extract_text_from_region`, `process_image` and
`process_media`, together with the parts of the libraries they depend on
that decide the claims (the difflib `SequenceMatcher.ratio`, `str.strip`
truthiness, `os.path.splitext`, `str.lower`, and the pixel-level effect of
`cv2.rectangle` / `cv2.cvtColor` / numpy slicing).  Python floats are
modelled as rationals, Python sets as lists of their elements (mutation
becomes explicit state passing), and the OCR / detector engines as opaque
functions producing values of the shapes the script inspects.
-/

namespace App

/-! ### difflib.SequenceMatcher (isjunk = None), as called by `is_similar` -/

/-- All indices `j` with `b[j] = c`, ascending: the difflib `b2j[c]` before
pruning.  With `isjunk = None` (the script calls `SequenceMatcher(None, ..)`)
there is no junk, so only the "popular" pruning below applies. -/
def occurrences (b : List Char) (c : Char) : List Nat :=
  (List.range b.length).filter (fun j => b.getD j ' ' = c)

/-- difflib autojunk: when `len(b) >= 200`, an element occurring more than
`len(b) // 100 + 1` times is "popular" and is dropped from `b2j`. -/
def isPopular (b : List Char) (c : Char) : Bool :=
  decide (200 ≤ b.length) && decide (b.length / 100 + 1 < (occurrences b c).length)

/-- the difflib `b2j` mapping after autojunk pruning. -/
def b2j (b : List Char) (c : Char) : List Nat :=
  if isPopular b c then [] else occurrences b c

/-- The running best block of `find_longest_match`: `(besti, bestj, bestsize)`. -/
structure Best where
  besti : Nat
  bestj : Nat
  bestsize : Nat
deriving Repr, DecidableEq

/-- One row `i` of the dynamic programme in `find_longest_match`: the Python
inner `for j in b2j.get(a[i], nothing)` loop.  `j2len` is the previous row
(`j2len.get(j-1, 0)`; the key `-1` is never present, hence the `j = 0` case);
the returned map is `newj2len`.  Skipping `j < blo` and breaking at
`j >= bhi` over an ascending list is the filter below. -/
def flmRow (bj : List Nat) (blo bhi i : Nat) (st : Best) (j2len : Nat → Nat) :
    Best × (Nat → Nat) :=
  (bj.filter (fun j => decide (blo ≤ j) && decide (j < bhi))).foldl
    (fun p j =>
      let k := (if j = 0 then 0 else j2len (j - 1)) + 1
      let nj := fun x => if x = j then k else p.2 x
      if p.1.bestsize < k then (⟨i + 1 - k, j + 1 - k, k⟩, nj) else (p.1, nj))
    (st, fun _ => 0)

/-- The main `for i in range(alo, ahi)` loop of `find_longest_match`,
starting from `besti, bestj, bestsize = alo, blo, 0` and `j2len = {}`. -/
def flmLoop (a b : List Char) (alo ahi blo bhi : Nat) : Best :=
  ((List.range' alo (ahi - alo)).foldl
    (fun p i => flmRow (b2j b (a.getD i ' ')) blo bhi i p.1 p.2)
    ((⟨alo, blo, 0⟩ : Best), fun _ => 0)).1

/-- The backward extension while-loop of `find_longest_match` (the non-junk
one; with `isjunk = None` the set `bjunk` is empty, so the two junk
extension loops never run and are omitted).  The fuel bounds the iteration
count; `besti - alo` iterations can happen at most. -/
def extendBack (a b : List Char) (alo blo : Nat) : Nat → Best → Best
  | 0, st => st
  | fuel + 1, st =>
    if alo < st.besti ∧ blo < st.bestj ∧
        a.getD (st.besti - 1) ' ' = b.getD (st.bestj - 1) ' ' then
      extendBack a b alo blo fuel ⟨st.besti - 1, st.bestj - 1, st.bestsize + 1⟩
    else st

/-- The forward extension while-loop of `find_longest_match` (non-junk one;
see `extendBack`).  At most `ahi - (besti + bestsize)` iterations happen. -/
def extendFwd (a b : List Char) (ahi bhi : Nat) : Nat → Best → Best
  | 0, st => st
  | fuel + 1, st =>
    if st.besti + st.bestsize < ahi ∧ st.bestj + st.bestsize < bhi ∧
        a.getD (st.besti + st.bestsize) ' ' = b.getD (st.bestj + st.bestsize) ' ' then
      extendFwd a b ahi bhi fuel ⟨st.besti, st.bestj, st.bestsize + 1⟩
    else st

/-- the difflib `find_longest_match(alo, ahi, blo, bhi)` with `isjunk = None`. -/
def findLongestMatch (a b : List Char) (alo ahi blo bhi : Nat) : Best :=
  let st := flmLoop a b alo ahi blo bhi
  let st := extendBack a b alo blo (st.besti + 1) st
  extendFwd a b ahi bhi (ahi + 1) st

/-- Sum of the sizes of the difflib matching blocks on `a[alo:ahi]` vs
`b[blo:bhi]`: the recursive reading of `get_matching_blocks` (the queue in
the Python source and the adjacent-block collapse both preserve this sum,
which is all `ratio()` consumes).  Each recursive call strictly shrinks
`(ahi - alo) + (bhi - blo)`, so fuel `len(a) + len(b) + 1` is never
exhausted on the top-level call. -/
def matchesSum (a b : List Char) : Nat → Nat → Nat → Nat → Nat → Nat
  | 0, _, _, _, _ => 0
  | fuel + 1, alo, ahi, blo, bhi =>
    let st := findLongestMatch a b alo ahi blo bhi
    if st.bestsize = 0 then 0
    else
      st.bestsize + matchesSum a b fuel alo st.besti blo st.bestj +
        matchesSum a b fuel (st.besti + st.bestsize) ahi (st.bestj + st.bestsize) bhi

/-- `SequenceMatcher(None, a, b).ratio()`: `2.0 * M / (len(a) + len(b))`
where `M` is the total size of the matching blocks, and `1.0` when both
strings are empty (`_calculate_ratio`).  The float is modelled as `ℚ`. -/
def ratioOf (a b : String) : ℚ :=
  let la := a.data
  let lb := b.data
  let t := la.length + lb.length
  if t = 0 then 1
  else (2 * (matchesSum la lb (t + 1) 0 la.length 0 lb.length) : ℚ) / (t : ℚ)

/-- `is_similar(text, seen_texts, threshold=0.85)` from src/app.py:
true iff some already-seen text has similarity ratio `>= threshold` with
`text`.  The Python set `seen_texts` is modelled as a list of its
elements (the iteration order of the `for seen in seen_texts` loop). -/
def is_similar (text : String) (seen_texts : List String)
    (threshold : ℚ := 0.85) : Bool :=
  seen_texts.any (fun seen => decide (threshold ≤ ratioOf text seen))

/-! ### Python string helpers used by the script -/

/-- Whitespace as stripped by `str.strip()` (the ASCII whitespace
characters; the OCR strings handled by the script are ASCII). -/
def pyIsSpace (c : Char) : Bool :=
  (c = ' ') || (c = '\t') || (c = '\n') || (c = '\r') || (c = '\x0b') || (c = '\x0c')

/-- Truthiness of `text.strip()`: the stripped string is nonempty, i.e.
some character of `text` is not whitespace. -/
def stripTruthy (t : String) : Bool := t.data.any (fun c => !(pyIsSpace c))

/-- Round to the nearest integer, ties to even: the rounding used by the Python
fixed-point float formatting, with the float modelled as an exact rational. -/
def roundHalfEven (x : ℚ) : ℤ :=
  let f := ⌊x⌋
  let r := x - (f : ℚ)
  if r < 1 / 2 then f
  else if 1 / 2 < r then f + 1
  else if 2 ∣ f then f else f + 1

/-- A natural number printed with at least two decimal digits. -/
def natPad2 (n : Nat) : String :=
  if n < 10 then "0" ++ toString n else toString n

/-- The confidence cell of a row, an f-string in the script: `conf * 100`
rendered in fixed-point notation with two decimals, then a percent sign. -/
def formatPercent (conf : ℚ) : String :=
  let n := roundHalfEven (conf * 100 * 100)
  let m := n.natAbs
  let body := toString (m / 100) ++ "." ++ natPad2 (m % 100) ++ "%"
  if n < 0 then "-" ++ body else body

/-! ### The OCR result shape inspected by `extract_text_from_region` -/

/-- An entry of a PaddleOCR result line as the script inspects it: `None`,
a sequence of the wrong arity (`len(item) != 2`; length 0 is the falsy
empty sequence), or a well-formed pair `(bbox, (text, conf))`. -/
inductive OcrItem where
  | null : OcrItem
  | wrongArity (n : Nat) : OcrItem
  | cell (bbox : List (ℚ × ℚ)) (text : String) (conf : ℚ) : OcrItem
deriving DecidableEq

/-- Python truthiness of an item (`if item`): `None` and the empty
sequence are falsy. -/
def OcrItem.truthy : OcrItem → Bool
  | .null => false
  | .wrongArity n => decide (n ≠ 0)
  | .cell _ _ _ => true

/-- `len(item)`; only consulted after the item proved truthy. -/
def OcrItem.pyLen : OcrItem → Nat
  | .null => 0
  | .wrongArity n => n
  | .cell _ _ _ => 2

/-- A line of a PaddleOCR result: `None` or a list of items.
`if not line: continue` skips `None` and the empty list. -/
abbrev OcrLine := Option (List OcrItem)

/-- The value of `ocr_engine.ocr(region, cls=True)` as consumed by the
script: `None` or a list of lines; `if result:` guards the falsy cases. -/
abbrev OcrResult := Option (List OcrLine)

/-- A row appended to `extracted`: the pair of the Detected Text cell
(the raw text) and the Confidence cell (the formatted percentage). -/
structure Row where
  text : String
  conf : String
deriving DecidableEq

/-- `seen_texts.add(text)` with the Python set modelled as the list of its
elements: adding a member leaves the set unchanged. -/
def addSeen (s : List String) (t : String) : List String :=
  if t ∈ s then s else s ++ [t]

/-- The innermost loop body of `extract_text_from_region` acting on the
accumulator `(extracted, seen_texts)`: `if item and len(item) == 2:`,
destructure `(bbox, (text, conf)) = item`, then
`if not is_similar(text, seen_texts) and text.strip():` append the row and
add the text.  A truthy sequence of length 2 is always a well-formed
`(bbox, (text, conf))` in this model (the PaddleOCR output contract;
`wrongArity` is meant to carry `n ≠ 2`, see `wellShaped`). -/
def processItem (st : List Row × List String) (item : OcrItem) :
    List Row × List String :=
  if item.truthy && (item.pyLen == 2) then
    match item with
    | .cell _ text conf =>
      if !(is_similar text st.2) && stripTruthy text then
        (st.1 ++ [⟨text, formatPercent conf⟩], addSeen st.2 text)
      else st
    | _ => st
  else st

/-- The middle loop body of `extract_text_from_region`:
`if not line: continue`, then the item loop. -/
def processLine (st : List Row × List String) (line : OcrLine) :
    List Row × List String :=
  match line with
  | none => st
  | some items => if items.isEmpty then st else items.foldl processItem st

/-- `extract_text_from_region(region, ocr_engine, seen_texts)`: the pure
part, taking `result = ocr_engine.ocr(region, cls=True)` as input.  The
in-place mutation of the set `seen_texts` is made explicit: the function
returns `extracted` together with the updated set. -/
def extract_text_from_region (result : OcrResult) (seen_texts : List String) :
    List Row × List String :=
  match result with
  | none => ([], seen_texts)
  | some lines =>
    if lines.isEmpty then ([], seen_texts)
    else lines.foldl processLine ([], seen_texts)

/-! ### Images, `process_image`, `process_media` -/

/-- A pixel: a channel triple (`(b, g, r)` or `(r, g, b)`). -/
abbrev Pixel := Nat × Nat × Nat

/-- An image as a function from `(row, column)` to pixel: the part of the
numpy array the script observes (array bounds are not modelled). -/
abbrev Image := Nat → Nat → Pixel

/-- `cv2.cvtColor` with `COLOR_BGR2RGB` or `COLOR_RGB2BGR`: both swap the
first and third channel of every pixel. -/
def cvtColor (img : Image) : Image :=
  fun y x => ((img y x).2.2, (img y x).2.1, (img y x).1)

/-- A detected box after `x1, y1, x2, y2 = map(int, box.xyxy[0])`. -/
structure Box where
  x1 : Nat
  y1 : Nat
  x2 : Nat
  y2 : Nat
deriving DecidableEq

/-- The pixels repainted by `cv2.rectangle(img, (x1, y1), (x2, y2), color, 2)`,
modelled as the one-pixel outline of the rectangle: those pixels are painted
under every positive thickness, and nothing in the claims depends on the
extra neighbouring pixels a thickness of 2 also paints. -/
def onBorder (b : Box) (y x : Nat) : Bool :=
  (((x = b.x1) || (x = b.x2)) && decide (b.y1 ≤ y) && decide (y ≤ b.y2)) ||
  (((y = b.y1) || (y = b.y2)) && decide (b.x1 ≤ x) && decide (x ≤ b.x2))

/-- `cv2.rectangle`: repaint the outline pixels with `color`, in place on
the numpy array (the script passes `image_rgb` itself, not a copy). -/
def rectangle (img : Image) (b : Box) (color : Pixel) : Image :=
  fun y x => if onBorder b y x then color else img y x

/-- The numpy slice `image[y1:y2, x1:x2]`: the image translated so that its
origin is `(y1, x1)` (the extent of the slice is not modelled). -/
def cropBox (img : Image) (b : Box) : Image :=
  fun y x => img (b.y1 + y) (b.x1 + x)

/-- The drawing colour `(0, 255, 0)` of the script. -/
def green : Pixel := (0, 255, 0)

/-- The state of the box loop in `process_image`: the annotated
`image_rgb`, the accumulated `ocr_data`, the seen set, and (as a ghost
observation) the successive `roi_bgr` regions handed to the OCR engine. -/
structure BoxState where
  img : Image
  rows : List Row
  seen : List String
  rois : List Image

/-- The box loop body of `process_image`: draw the rectangle on
`image_rgb`, crop `roi = image_rgb[y1:y2, x1:x2]` from the same
just-annotated array, convert `roi` to BGR, and extend `ocr_data` with the
extracted rows. -/
def processBox (ocrFun : Image → OcrResult) (st : BoxState) (b : Box) :
    BoxState :=
  let img := rectangle st.img b green
  let roi_bgr := cvtColor (cropBox img b)
  let res := extract_text_from_region (ocrFun roi_bgr) st.seen
  ⟨img, st.rows ++ res.1, res.2, st.rois ++ [roi_bgr]⟩

/-- The outcome of `process_image(image_path, output_path)`: what
`cv2.imwrite` persisted, the returned pair, and the regions handed to the
OCR engine. -/
structure ImageRun where
  writtenPath : String
  writtenImage : Image
  retPath : String
  rows : List Row
  rois : List Image

/-- `process_image(image_path, output_path)`.  `cv2.imread` yields the BGR
image `imageBGR`; the detector output is flattened into the list of
boxes that the nested `for result in results: for box in result.boxes:`
loops visit in order; the OCR engine is the function `ocrFun` from a
region to its result.  `seen_texts` starts as the empty set. -/
def process_image (imageBGR : Image) (boxes : List Box)
    (ocrFun : Image → OcrResult) (output_path : String) : ImageRun :=
  let image_rgb := cvtColor imageBGR
  let st := boxes.foldl (processBox ocrFun) ⟨image_rgb, [], [], []⟩
  ⟨output_path, cvtColor st.img, output_path, st.rows, st.rois⟩

/-- Index of the last occurrence of `c` in `l`: the Python `rfind`, `-1`
when absent. -/
def rfindChar (l : List Char) (c : Char) : Int :=
  match (occurrences l c).getLast? with
  | some j => (j : Int)
  | none => -1

/-- `os.path.splitext(p)[1]` under posix rules: the suffix from the last
dot, provided that dot lies after the last `/` and some character strictly
between the last `/` and that dot is not itself a dot (leading dots of the
basename never start an extension). -/
def splitext_ext (p : String) : String :=
  let l := p.data
  let sepIndex := rfindChar l '/'
  let dotIndex := rfindChar l '.'
  if decide (sepIndex < dotIndex) &&
      ((List.range l.length).any fun k =>
        decide (sepIndex < (k : Int)) && decide ((k : Int) < dotIndex) &&
          !(l.getD k ' ' = '.')) then
    String.mk (l.drop dotIndex.toNat)
  else ""

/-- Python `str.lower()` (ASCII case folding; the extensions the script
compares against are ASCII). -/
def lowerStr (s : String) : String := String.mk (s.data.map Char.toLower)

/-- The image extensions accepted by `process_media`. -/
def imageExts : List String := [".jpg", ".jpeg", ".png", ".bmp"]

/-- The video extensions rejected with a warning by `process_media`. -/
def videoExts : List String := [".mp4", ".avi", ".mov", ".mkv"]

/-- The observable outcome of `process_media`: either `process_image` ran
and its value was returned, or one of the two rejection branches showed a
message and returned `None, []`. -/
inductive MediaResult where
  | processed (run : ImageRun)
  | videoUnsupported
  | unsupportedType

/-- The pair `process_media` returns: `(output_path, rows)` from
`process_image`, or `(None, [])` on both rejection branches. -/
def MediaResult.ret : MediaResult → Option String × List Row
  | .processed r => (some r.retPath, r.rows)
  | .videoUnsupported => (none, [])
  | .unsupportedType => (none, [])

/-- `process_media(input_path, output_path)`: dispatch on the lowercased
extension of the input path. -/
def process_media (input_path : String) (imageBGR : Image) (boxes : List Box)
    (ocrFun : Image → OcrResult) (output_path : String) : MediaResult :=
  let ext := lowerStr (splitext_ext input_path)
  if ext ∈ imageExts then
    .processed (process_image imageBGR boxes ocrFun output_path)
  else if ext ∈ videoExts then .videoUnsupported
  else .unsupportedType

/-! ### Specification-side forms used to state the claims -/

/-- All rectangles of `boxes` drawn on `img`, in order. -/
def drawAll (img : Image) (boxes : List Box) : Image :=
  boxes.foldl (fun im b => rectangle im b green) img

/-- Box-by-box recursion for the rows of the box loop: draw the rectangle of this
box, crop from the annotated image, run the OCR engine, extract with
the threaded seen set, and continue. -/
def rowsFrom (ocrFun : Image → OcrResult) :
    Image → List String → List Box → List Row
  | _, _, [] => []
  | img, seen, b :: bs =>
    let img2 := rectangle img b green
    let res := extract_text_from_region (ocrFun (cvtColor (cropBox img2 b))) seen
    res.1 ++ rowsFrom ocrFun img2 res.2 bs

/-- Box-by-box recursion for the seen set threaded through the box loop. -/
def seenFrom (ocrFun : Image → OcrResult) :
    Image → List String → List Box → List String
  | _, seen, [] => seen
  | img, seen, b :: bs =>
    let img2 := rectangle img b green
    let res := extract_text_from_region (ocrFun (cvtColor (cropBox img2 b))) seen
    seenFrom ocrFun img2 res.2 bs

/-- Box-by-box recursion for the regions handed to the OCR engine. -/
def roisFrom (ocrFun : Image → OcrResult) :
    Image → List String → List Box → List Image
  | _, _, [] => []
  | img, seen, b :: bs =>
    let img2 := rectangle img b green
    let roi := cvtColor (cropBox img2 b)
    roi :: roisFrom ocrFun img2 (extract_text_from_region (ocrFun roi) seen).2 bs

/-- The items of a result in traversal order (`None` lines contribute
nothing, matching `if not line: continue`; an empty item list contributes
nothing either way). -/
def flatItems : OcrResult → List OcrItem
  | none => []
  | some lines =>
    (lines.map (fun l => match l with | none => [] | some items => items)).flatten

/-- The payload of a well-formed item. -/
def toCell : OcrItem → Option (List (ℚ × ℚ) × String × ℚ)
  | .cell b t c => some (b, t, c)
  | _ => none

/-- The well-formed `(bbox, (text, conf))` items of a result, in traversal
order, the malformed parts dropped. -/
def cellsOf (result : OcrResult) : List (List (ℚ × ℚ) × String × ℚ) :=
  (flatItems result).filterMap toCell

/-- The item-loop body restricted to well-formed items. -/
def processCell (st : List Row × List String)
    (c : List (ℚ × ℚ) × String × ℚ) : List Row × List String :=
  if !(is_similar c.2.1 st.2) && stripTruthy c.2.1 then
    (st.1 ++ [⟨c.2.1, formatPercent c.2.2⟩], addSeen st.2 c.2.1)
  else st

/-- An item is within the shapes the script can destructure: a sequence
modelled by `wrongArity n` really has `n ≠ 2` elements (a truthy length-2
sequence is always a `cell`). -/
def itemShaped : OcrItem → Bool
  | .wrongArity n => decide (n ≠ 2)
  | _ => true

/-- Every item of the result is within the modelled shapes. -/
def wellShaped : OcrResult → Bool
  | none => true
  | some lines =>
    lines.all fun l => match l with
      | none => true
      | some items => items.all itemShaped

/-- The accumulator after the first `n` items of a flat stream of OCR
items, starting (as the pipeline does) from no rows and an empty seen
set. -/
def runItems (items : List OcrItem) (n : Nat) : List Row × List String :=
  (items.take n).foldl processItem ([], [])

/-- The default image used with `List.getD` on lists of regions. -/
def dfltImg : Image := fun _ _ => (0, 0, 0)

/-- The default box used with `List.getD` on lists of boxes. -/
def dfltBox : Box := ⟨0, 0, 0, 0⟩

/-! ### Concrete inputs used in counterexamples and witnesses -/

/-- Seven letters `a`. -/
def exT1 : String := "aaaaaaa"

/-- Six letters `a` then a letter `b`. -/
def exT2 : String := "aaaaaab"

/-- Five letters `a` then two letters `b`. -/
def exT3 : String := "aaaaabb"

/-- Seventeen letters `a`. -/
def exTA : String := ⟨List.replicate 17 'a'⟩

/-- Seventeen letters `a` then `bcdefg`. -/
def exTB : String := ⟨List.replicate 17 'a' ++ "bcdefg".data⟩

/-- A stream of three well-formed OCR items: `exT2` is a near-duplicate of
`exT1`, and `exT3` is a near-duplicate of `exT2` but not of `exT1`. -/
def exItems3 : List OcrItem :=
  [.cell [] exT1 1, .cell [] exT2 1, .cell [] exT3 1]

/-- A stream of two items with the same text. -/
def exItems2 : List OcrItem := [.cell [] "abab" 1, .cell [] "abab" 1]

/-- A uniform grey test image. -/
def cImg : Image := fun _ _ => (7, 7, 7)

/-- A single detected test box. -/
def cBox : Box := ⟨0, 0, 2, 2⟩

/-- An OCR engine returning `None` for every region. -/
def cOcr : Image → OcrResult := fun _ => none

/-- An OCR result with a whitespace-only text before an ordinary one. -/
def exResult8 : OcrResult :=
  some [some [.cell [] " " 1, .cell [] "AB" 1]]

/-- An OCR result with one well-formed item. -/
def exResult6 : OcrResult := some [some [.cell [] "AB12CD" (9 / 10)]]

/-- An OCR result with `None` lines, empty lines and malformed items
around one well-formed item. -/
def exResult10 : OcrResult :=
  some [none, some [], some [.null, .wrongArity 3, .cell [] "Z9" 1]]

/-! ### Helper lemmas -/

/-- Computation rule for `ratioOf` from the two integers difflib derives
the ratio from. -/
lemma ratioOf_eq_div (a b : String) (M T : Nat)
    (hT : a.data.length + b.data.length = T)
    (hM : matchesSum a.data b.data (T + 1) 0 a.data.length 0 b.data.length = M)
    (h0 : T ≠ 0) :
    ratioOf a b = (2 * (M : ℚ)) / (T : ℚ) := by
  simp only [ratioOf, hT, hM, if_neg h0]

/-- `is_similar` holds exactly when some member of the seen set reaches the
threshold ratio. -/
lemma is_similar_iff (t : String) (s : List String) (θ : ℚ) :
    is_similar t s θ = true ↔ ∃ x ∈ s, θ ≤ ratioOf t x := by
  simp [is_similar]

/-- Membership in the set after `seen_texts.add(text)`. -/
lemma mem_addSeen (s : List String) (t x : String) :
    x ∈ addSeen s t ↔ x ∈ s ∨ x = t := by
  unfold addSeen
  by_cases h : t ∈ s
  · rw [if_pos h]
    constructor
    · exact fun hx => Or.inl hx
    · rintro (hx | rfl)
      · exact hx
      · exact h
  · rw [if_neg h]
    simp

/-- The item-loop body either leaves the accumulator unchanged or appends
one row for a well-formed, dissimilar, non-whitespace text and adds that
text to the seen set. -/
lemma processItem_cases (st : List Row × List String) (item : OcrItem) :
    processItem st item = st ∨
      ∃ b t c, item = .cell b t c ∧ is_similar t st.2 = false ∧
        stripTruthy t = true ∧
        processItem st item =
          (st.1 ++ [⟨t, formatPercent c⟩], addSeen st.2 t) := by
  cases item with
  | null => exact Or.inl rfl
  | wrongArity n =>
    refine Or.inl ?_
    cases h : (OcrItem.truthy (.wrongArity n) && (OcrItem.pyLen (.wrongArity n) == 2)) <;>
      simp [processItem, h]
  | cell b t c =>
    by_cases hsim : is_similar t st.2 = true
    · exact Or.inl (by simp [processItem, OcrItem.truthy, OcrItem.pyLen, hsim])
    · have hsim' : is_similar t st.2 = false := by
        simpa using hsim
      by_cases hstrip : stripTruthy t = true
      · refine Or.inr ⟨b, t, c, rfl, hsim', hstrip, ?_⟩
        simp [processItem, OcrItem.truthy, OcrItem.pyLen, hsim', hstrip]
      · have hstrip' : stripTruthy t = false := by simpa using hstrip
        exact Or.inl (by simp [processItem, OcrItem.truthy, OcrItem.pyLen, hstrip'])

/-- The rows component only ever grows by appending; the seen component
does not depend on the rows already accumulated. -/
lemma processItem_decomp (rows : List Row) (seen : List String) (item : OcrItem) :
    processItem (rows, seen) item =
      (rows ++ (processItem ([], seen) item).1,
       (processItem ([], seen) item).2) := by
  cases item with
  | null => simp [processItem]
  | wrongArity n =>
    cases h : (OcrItem.truthy (.wrongArity n) && (OcrItem.pyLen (.wrongArity n) == 2)) <;>
      simp [processItem, h]
  | cell b t c =>
    cases h : (!(is_similar t seen) && stripTruthy t) <;>
      simp [processItem, OcrItem.truthy, OcrItem.pyLen, h]

/-- `foldl processItem` from an arbitrary accumulator, decomposed through
the run from `([], seen)`. -/
lemma foldl_processItem_decomp (items : List OcrItem)
    (st : List Row × List String) :
    items.foldl processItem st =
      (st.1 ++ (items.foldl processItem ([], st.2)).1,
       (items.foldl processItem ([], st.2)).2) := by
  obtain ⟨rows, seen⟩ := st
  induction items generalizing rows seen with
  | nil => simp
  | cons it rest ih =>
    simp only [List.foldl_cons]
    rw [processItem_decomp rows seen it]
    rw [ih (rows ++ (processItem ([], seen) it).1) (processItem ([], seen) it).2]
    have hpair : processItem ([], seen) it =
        ((processItem ([], seen) it).1, (processItem ([], seen) it).2) := rfl
    rw [hpair, ih (processItem ([], seen) it).1 (processItem ([], seen) it).2,
      List.append_assoc]

/-- The seen set only grows along the item loop. -/
lemma mem_seen_foldl (items : List OcrItem) (st : List Row × List String)
    (x : String) (hx : x ∈ st.2) : x ∈ (items.foldl processItem st).2 := by
  induction items generalizing st with
  | nil => exact hx
  | cons it rest ih =>
    simp only [List.foldl_cons]
    rcases processItem_cases st it with h | ⟨b, t, c, _, _, _, h⟩
    · rw [h]; exact ih st hx
    · rw [h]
      exact ih _ ((mem_addSeen st.2 t x).mpr (Or.inl hx))

/-- Every row appended by the item loop carries a non-whitespace text. -/
lemma rows_stripTruthy (items : List OcrItem) (st : List Row × List String)
    (h0 : ∀ r ∈ st.1, stripTruthy r.text = true) :
    ∀ r ∈ (items.foldl processItem st).1, stripTruthy r.text = true := by
  induction items generalizing st with
  | nil => exact h0
  | cons it rest ih =>
    simp only [List.foldl_cons]
    rcases processItem_cases st it with h | ⟨b, t, c, _, _, hstrip, h⟩
    · rw [h]; exact ih st h0
    · rw [h]
      refine ih _ ?_
      intro r hr
      rcases List.mem_append.mp hr with hr | hr
      · exact h0 r hr
      · obtain rfl := List.mem_singleton.mp hr
        exact hstrip

/-- Run from an empty row accumulator: the seen set is exactly the initial
set together with the texts of the emitted rows. -/
lemma seen_eq_texts (items : List OcrItem) (seen : List String) (x : String) :
    x ∈ (items.foldl processItem ([], seen)).2 ↔
      x ∈ seen ∨ x ∈ (items.foldl processItem ([], seen)).1.map Row.text := by
  induction items generalizing seen with
  | nil => simp
  | cons it rest ih =>
    simp only [List.foldl_cons]
    rcases processItem_cases ([], seen) it with h | ⟨b, t, c, _, _, _, h⟩
    · rw [h]; exact ih seen
    · rw [h]
      dsimp only [List.nil_append]
      rw [foldl_processItem_decomp rest ([⟨t, formatPercent c⟩], addSeen seen t)]
      simp only [List.map_append, List.map_cons, List.map_nil, List.mem_append,
        List.mem_cons, List.not_mem_nil, or_false, List.nil_append,
        List.mem_singleton]
      rw [ih (addSeen seen t), mem_addSeen]
      tauto

/-- `processLine` is the item loop over the items of the line (none and the
empty line contribute nothing). -/
lemma processLine_eq (st : List Row × List String) (l : OcrLine) :
    processLine st l =
      (match l with | none => [] | some items => items).foldl processItem st := by
  cases l with
  | none => rfl
  | some items => cases items <;> simp [processLine]

/-- The line loop is the item loop over the flattened items. -/
lemma foldl_processLine_eq (lines : List OcrLine) (st : List Row × List String) :
    lines.foldl processLine st =
      ((lines.map (fun l => match l with | none => [] | some items => items)).flatten).foldl
        processItem st := by
  induction lines generalizing st with
  | nil => rfl
  | cons l rest ih =>
    simp only [List.foldl_cons, List.map_cons, List.flatten_cons, List.foldl_append]
    rw [processLine_eq, ih]

/-- `extract_text_from_region` is the item loop over the flattened items of
the result. -/
lemma extract_eq_foldl (r : OcrResult) (s : List String) :
    extract_text_from_region r s = (flatItems r).foldl processItem ([], s) := by
  cases r with
  | none => rfl
  | some lines =>
    show (if lines.isEmpty then ([], s) else lines.foldl processLine ([], s)) = _
    by_cases h : lines.isEmpty
    · rw [if_pos h]
      obtain rfl := List.isEmpty_iff.mp h
      rfl
    · rw [if_neg h]
      exact foldl_processLine_eq lines ([], s)

/-- The verdict of `is_similar` depends only on which texts are members of
the seen set, not on iteration order or multiplicity. -/
lemma is_similar_mem_congr (t : String) (s s' : List String) (θ : ℚ)
    (h : ∀ x, x ∈ s ↔ x ∈ s') : is_similar t s θ = is_similar t s' θ := by
  rw [Bool.eq_iff_iff, is_similar_iff, is_similar_iff]
  constructor
  · rintro ⟨x, hx, hr⟩; exact ⟨x, (h x).mp hx, hr⟩
  · rintro ⟨x, hx, hr⟩; exact ⟨x, (h x).mpr hx, hr⟩

/-- One step of the item loop under two seen sets with the same members:
equal row output, same-membership seen sets. -/
lemma processItem_mem_congr (st st' : List Row × List String) (it : OcrItem)
    (hr : st.1 = st'.1) (hs : ∀ x, x ∈ st.2 ↔ x ∈ st'.2) :
    (processItem st it).1 = (processItem st' it).1 ∧
      ∀ x, x ∈ (processItem st it).2 ↔ x ∈ (processItem st' it).2 := by
  cases it with
  | null => exact ⟨hr, hs⟩
  | wrongArity n =>
    cases h : (OcrItem.truthy (.wrongArity n) && (OcrItem.pyLen (.wrongArity n) == 2)) <;>
      simp [processItem, h, hr, hs]
  | cell b t c =>
    have hsim : is_similar t st.2 = is_similar t st'.2 :=
      is_similar_mem_congr t st.2 st'.2 _ hs
    cases h : (!(is_similar t st'.2) && stripTruthy t) with
    | false =>
      have h0 : (!(is_similar t st.2) && stripTruthy t) = false := by
        rw [hsim]; exact h
      simp [processItem, OcrItem.truthy, OcrItem.pyLen, h, h0, hr, hs]
    | true =>
      have h0 : (!(is_similar t st.2) && stripTruthy t) = true := by
        rw [hsim]; exact h
      simp only [processItem, OcrItem.truthy, OcrItem.pyLen, h, h0, Bool.and_self,
        if_true, beq_self_eq_true]
      refine ⟨by rw [hr], fun x => ?_⟩
      rw [mem_addSeen, mem_addSeen]
      rw [hs x]

/-- The item loop under two seen sets with the same members: equal row
output, same-membership seen sets. -/
lemma foldl_processItem_mem_congr (items : List OcrItem)
    (st st' : List Row × List String) (hr : st.1 = st'.1)
    (hs : ∀ x, x ∈ st.2 ↔ x ∈ st'.2) :
    (items.foldl processItem st).1 = (items.foldl processItem st').1 ∧
      ∀ x, x ∈ (items.foldl processItem st).2 ↔
        x ∈ (items.foldl processItem st').2 := by
  induction items generalizing st st' with
  | nil => exact ⟨hr, hs⟩
  | cons it rest ih =>
    simp only [List.foldl_cons]
    obtain ⟨hr', hs'⟩ := processItem_mem_congr st st' it hr hs
    exact ih (processItem st it) (processItem st' it) hr' hs'

/-- On shaped items the item loop coincides with the loop over the
well-formed payloads only: malformed parts are skipped. -/
lemma foldl_processItem_eq_cells (items : List OcrItem)
    (st : List Row × List String) (h : ∀ it ∈ items, itemShaped it = true) :
    items.foldl processItem st =
      (items.filterMap toCell).foldl processCell st := by
  induction items generalizing st with
  | nil => rfl
  | cons it rest ih =>
    have hrest : ∀ i ∈ rest, itemShaped i = true := fun i hi => h i (List.mem_cons_of_mem it hi)
    cases it with
    | null =>
      simp only [List.foldl_cons, List.filterMap_cons]
      exact ih st hrest
    | wrongArity n =>
      have hn : (n == 2) = false := by
        have := h (.wrongArity n) (List.mem_cons_self _ _)
        simpa [itemShaped] using this
      simp only [List.foldl_cons, List.filterMap_cons, toCell]
      have hstep : processItem st (.wrongArity n) = st := by
        simp [processItem, OcrItem.truthy, OcrItem.pyLen, hn]
      rw [hstep]
      exact ih st hrest
    | cell b t c =>
      simp only [List.foldl_cons, List.filterMap_cons, toCell]
      have hstep : processItem st (.cell b t c) = processCell st (b, t, c) := rfl
      rw [hstep]
      exact ih _ hrest

/-- Every item of a shaped result is shaped. -/
lemma flatItems_shaped (r : OcrResult) (h : wellShaped r = true) :
    ∀ it ∈ flatItems r, itemShaped it = true := by
  cases r with
  | none => intro it hit; cases hit
  | some lines =>
    intro it hit
    simp only [flatItems, List.mem_flatten, List.mem_map] at hit
    obtain ⟨l, ⟨line, hline, rfl⟩, hin⟩ := hit
    have hl := (List.all_eq_true.mp h) line hline
    cases line with
    | none => cases hin
    | some items => exact (List.all_eq_true.mp hl) it hin

/-- Running one more item of a flat stream. -/
lemma runItems_succ (items : List OcrItem) (n : Nat) (h : n < items.length) :
    runItems items (n + 1) = processItem (runItems items n) (items.getD n .null) := by
  unfold runItems
  rw [List.take_succ, List.foldl_append]
  rw [List.getElem?_eq_getElem h]
  rw [List.getD_eq_getElem items .null h]
  rfl

/-- A longer run continues a shorter one. -/
lemma runItems_decomp (items : List OcrItem) {n m : Nat} (h : n ≤ m) :
    runItems items m =
      ((items.take m).drop n).foldl processItem (runItems items n) := by
  unfold runItems
  conv_lhs => rw [← List.take_append_drop n (items.take m)]
  rw [List.foldl_append, List.take_take, Nat.min_eq_left h]

/-- The box loop of `process_image`, decomposed into the four box-by-box
recursions: the annotated image, the rows, the seen set and the regions
handed to the OCR engine. -/
lemma foldl_processBox_eq (f : Image → OcrResult) (boxes : List Box)
    (st : BoxState) :
    boxes.foldl (processBox f) st =
      ⟨drawAll st.img boxes,
       st.rows ++ rowsFrom f st.img st.seen boxes,
       seenFrom f st.img st.seen boxes,
       st.rois ++ roisFrom f st.img st.seen boxes⟩ := by
  induction boxes generalizing st with
  | nil => simp [drawAll, rowsFrom, seenFrom, roisFrom]
  | cons b bs ih =>
    simp only [List.foldl_cons]
    rw [ih (processBox f st b)]
    simp only [processBox, drawAll, rowsFrom, seenFrom, roisFrom, List.foldl_cons,
      List.append_assoc, List.singleton_append]

/-- The region handed to the OCR engine for the `i`-th box is the crop of
the image annotated with the first `i + 1` rectangles, taken at that box,
converted to BGR. -/
lemma roisFrom_getD (f : Image → OcrResult) (boxes : List Box) :
    ∀ (img : Image) (seen : List String) (i : Nat), i < boxes.length →
      (roisFrom f img seen boxes).getD i dfltImg =
        cvtColor (cropBox (drawAll img (boxes.take (i + 1)))
          (boxes.getD i dfltBox)) := by
  induction boxes with
  | nil =>
    intro _ _ i h
    exact absurd h (Nat.not_lt_zero i)
  | cons b bs ih =>
    intro img seen i h
    cases i with
    | zero => simp [roisFrom, drawAll]
    | succ i =>
      have hi : i < bs.length := Nat.lt_of_succ_lt_succ h
      simp only [roisFrom, List.getD_cons_succ, List.take_succ_cons]
      rw [ih _ _ i hi]
      rfl

/-! ### Concrete similarity ratios

The ratios below are values of the embedded difflib on explicit strings;
each is established from the two integers (`M`, `T`) the algorithm derives
the ratio from, computed by kernel evaluation. -/

set_option maxRecDepth 40000 in
lemma ratio_TA_TB : ratioOf exTA exTB = 17 / 20 := by
  rw [ratioOf_eq_div exTA exTB 17 40 (by decide) (by decide) (by decide)]
  norm_num

set_option maxRecDepth 40000 in
lemma ratio_T2_T1 : ratioOf exT2 exT1 = 6 / 7 := by
  rw [ratioOf_eq_div exT2 exT1 6 14 (by decide) (by decide) (by decide)]
  norm_num

set_option maxRecDepth 40000 in
lemma ratio_T3_T1 : ratioOf exT3 exT1 = 5 / 7 := by
  rw [ratioOf_eq_div exT3 exT1 5 14 (by decide) (by decide) (by decide)]
  norm_num

set_option maxRecDepth 40000 in
lemma ratio_T3_T2 : ratioOf exT3 exT2 = 6 / 7 := by
  rw [ratioOf_eq_div exT3 exT2 6 14 (by decide) (by decide) (by decide)]
  norm_num

set_option maxRecDepth 40000 in
lemma ratio_T2_T3 : ratioOf exT2 exT3 = 6 / 7 := by
  rw [ratioOf_eq_div exT2 exT3 6 14 (by decide) (by decide) (by decide)]
  norm_num

set_option maxRecDepth 40000 in
lemma ratio_abab : ratioOf "abab" "abab" = 1 := by
  rw [ratioOf_eq_div "abab" "abab" 4 8 (by decide) (by decide) (by decide)]
  norm_num

lemma is_sim_T2_T1 : is_similar exT2 [exT1] = true := by
  refine (is_similar_iff _ _ _).mpr ⟨exT1, List.mem_singleton.mpr rfl, ?_⟩
  rw [ratio_T2_T1]
  norm_num

lemma is_sim_T3_T1 : is_similar exT3 [exT1] = false := by
  rw [Bool.eq_false_iff]
  intro htrue
  obtain ⟨x, hx, hle⟩ := (is_similar_iff _ _ _).mp htrue
  obtain rfl := List.mem_singleton.mp hx
  rw [ratio_T3_T1] at hle
  norm_num at hle

/-- Every returned row descends from one item of the processed stream. -/
lemma rows_source (items : List OcrItem) (st : List Row × List String) (row : Row)
    (h : row ∈ (items.foldl processItem st).1) :
    row ∈ st.1 ∨
      ∃ b t c, OcrItem.cell b t c ∈ items ∧ row = ⟨t, formatPercent c⟩ := by
  induction items generalizing st with
  | nil => exact Or.inl h
  | cons it rest ih =>
    simp only [List.foldl_cons] at h
    rcases ih (processItem st it) h with hmem | ⟨b, t, c, hin, rfl⟩
    · rcases processItem_cases st it with he | ⟨b, t, c, rfl, _, _, he⟩
      · rw [he] at hmem
        exact Or.inl hmem
      · rw [he] at hmem
        rcases List.mem_append.mp hmem with hmem | hmem
        · exact Or.inl hmem
        · obtain rfl := List.mem_singleton.mp hmem
          exact Or.inr ⟨b, t, c, List.mem_cons_self _ _, rfl⟩
    · exact Or.inr ⟨b, t, c, List.mem_cons_of_mem it hin, rfl⟩

/-- The run of `exItems3` after its first item. -/
lemma run3_1 : runItems exItems3 1 = ([⟨exT1, formatPercent 1⟩], [exT1]) := rfl

/-- The second item of `exItems3` is discarded as a near-duplicate. -/
lemma run3_2 : runItems exItems3 2 = ([⟨exT1, formatPercent 1⟩], [exT1]) := by
  rw [show (2 : Nat) = 1 + 1 from rfl, runItems_succ exItems3 1 (by decide), run3_1,
    show exItems3.getD 1 OcrItem.null = OcrItem.cell [] exT2 1 from rfl]
  simp [processItem, OcrItem.truthy, OcrItem.pyLen, is_sim_T2_T1]

/-- The third item of `exItems3` is kept: it is dissimilar from the one
kept text. -/
lemma run3_3 : runItems exItems3 3 =
    ([⟨exT1, formatPercent 1⟩, ⟨exT3, formatPercent 1⟩], [exT1, exT3]) := by
  have hstrip3 : stripTruthy exT3 = true := by decide
  have hnm : exT3 ∉ ([exT1] : List String) := by decide
  rw [show (3 : Nat) = 2 + 1 from rfl, runItems_succ exItems3 2 (by decide), run3_2,
    show exItems3.getD 2 OcrItem.null = OcrItem.cell [] exT3 1 from rfl]
  simp [processItem, OcrItem.truthy, OcrItem.pyLen, is_sim_T3_T1, hstrip3, addSeen, hnm]
  decide

/-- A lowercased video extension is never an image extension. -/
lemma video_not_image (e : String) (h : e ∈ videoExts) : e ∉ imageExts := by
  simp only [videoExts, List.mem_cons, List.not_mem_nil, or_false] at h
  rcases h with rfl | rfl | rfl | rfl <;> decide

/-! ### The claims -/

/-- C1, counterexample: `is_similar` classifies `exTA` as a duplicate of
the seen set `[exTB]` although no seen text has similarity ratio strictly
greater than 0.85 with it: the only ratio involved is exactly 0.85, and
the comparison in the code is the inclusive one, so strictly-above
misstates the boundary case. -/
theorem c1_counterexample :
    is_similar exTA [exTB] = true ∧ ratioOf exTA exTB = 17 / 20 ∧
      ¬ ((0.85 : ℚ) < ratioOf exTA exTB) := by
  refine ⟨?_, ratio_TA_TB, ?_⟩
  · refine (is_similar_iff _ _ _).mpr ⟨exTB, List.mem_singleton.mpr rfl, ?_⟩
    rw [ratio_TA_TB]
    norm_num
  · rw [ratio_TA_TB]
    norm_num

/-- C1, amended: for every candidate text and seen set, `is_similar`
classifies the text as a duplicate exactly when the similarity ratio
between the text and some seen text is at least the fixed threshold 0.85
(inclusive comparison), and as non-duplicate otherwise. -/
theorem c1_threshold_inclusive (t : String) (seen : List String) :
    is_similar t seen = true ↔ ∃ s ∈ seen, (0.85 : ℚ) ≤ ratioOf t s :=
  is_similar_iff t seen 0.85

/-- C2, counterexample: on a uniform grey image with one detected box, the
pixel `(0, 0)` of the region handed to the OCR engine is the freshly drawn
green rectangle pixel, not the grey pixel of the original uploaded image:
the crop is taken from the same array the rectangle was just drawn on, not
from a display copy. -/
theorem c2_counterexample :
    (process_image cImg [cBox] cOcr "out").rois.getD 0 dfltImg 0 0 = (0, 255, 0) ∧
      cropBox cImg cBox 0 0 = (7, 7, 7) :=
  ⟨rfl, rfl⟩

/-- C2, amended: the region handed to the OCR engine for the `i`-th box
equals the crop, at that box, of the image annotated with the rectangles
of this and all previously processed boxes (converted back to BGR) — not
a sub-region of the original unannotated image. -/
theorem c2_roi_from_annotated (imageBGR : Image) (boxes : List Box)
    (ocrFun : Image → OcrResult) (output_path : String) (i : Nat)
    (h : i < boxes.length) :
    (process_image imageBGR boxes ocrFun output_path).rois.getD i dfltImg =
      cvtColor (cropBox (drawAll (cvtColor imageBGR) (boxes.take (i + 1)))
        (boxes.getD i dfltBox)) := by
  simp only [process_image, foldl_processBox_eq, List.nil_append]
  exact roisFrom_getD ocrFun boxes (cvtColor imageBGR) [] i h

/-- Witness for the amended C2 at a concrete image and box list. -/
theorem c2_roi_witness :
    (process_image cImg [cBox] cOcr "out").rois.getD 0 dfltImg =
      cvtColor (cropBox (drawAll (cvtColor cImg) (([cBox] : List Box).take (0 + 1)))
        (([cBox] : List Box).getD 0 dfltBox)) :=
  c2_roi_from_annotated cImg [cBox] cOcr "out" 0 (by decide)

/-- C3, counterexample: in the stream `exItems3` the texts `exT2` and
`exT3` are near-identical (ratio 6/7 ≥ 0.85 in both directions) and `exT2`
is non-whitespace, yet the first occurrence of this group, `exT2`, is
discarded (its step emits nothing and its text is absent from the final
rows) while the later member `exT3` is kept — so the first occurrence of a
group of near-identical texts is not always kept. -/
theorem c3_counterexample :
    (0.85 : ℚ) ≤ ratioOf exT3 exT2 ∧ (0.85 : ℚ) ≤ ratioOf exT2 exT3 ∧
      stripTruthy exT2 = true ∧
      (runItems exItems3 2).1 = (runItems exItems3 1).1 ∧
      exT2 ∉ (runItems exItems3 3).1.map Row.text ∧
      exT3 ∈ (runItems exItems3 3).1.map Row.text := by
  refine ⟨by rw [ratio_T3_T2]; norm_num, by rw [ratio_T2_T3]; norm_num,
    by decide, ?_, ?_, ?_⟩
  · rw [run3_2, run3_1]
  · rw [run3_3]
    decide
  · rw [run3_3]
    decide

/-- C3, amended: whenever the text of a later item reaches the similarity
threshold against the text of an earlier kept line, the later line is
discarded from the returned rows while the earlier one remains in them;
the earliest occurrence of a group of near-identical texts, however, is
kept only when it is non-whitespace and not itself similar to a
previously kept text (the first occurrence of a group can be discarded while a
later member is kept, as the counterexample shows). -/
theorem c3_later_duplicate_discarded (items : List OcrItem) (i j : Nat)
    (bi : List (ℚ × ℚ)) (ti : String) (ci : ℚ)
    (bj : List (ℚ × ℚ)) (tj : String) (cj : ℚ)
    (hij : i < j) (hj : j < items.length)
    (hgi : items.getD i .null = .cell bi ti ci)
    (hgj : items.getD j .null = .cell bj tj cj)
    (hkept : ti ∈ (runItems items (i + 1)).1.map Row.text)
    (hratio : (0.85 : ℚ) ≤ ratioOf tj ti) :
    (runItems items (j + 1)).1 = (runItems items j).1 ∧
      ti ∈ (runItems items items.length).1.map Row.text := by
  have hι : i + 1 ≤ j := hij
  have hseen1 : ti ∈ (runItems items (i + 1)).2 := by
    unfold runItems at hkept ⊢
    exact (seen_eq_texts _ [] ti).mpr (Or.inr hkept)
  have hseenj : ti ∈ (runItems items j).2 := by
    rw [runItems_decomp items hι]
    exact mem_seen_foldl _ _ ti hseen1
  have hsim : is_similar tj (runItems items j).2 = true :=
    (is_similar_iff _ _ _).mpr ⟨ti, hseenj, hratio⟩
  have hstep : runItems items (j + 1) = runItems items j := by
    rw [runItems_succ items j hj, hgj]
    simp [processItem, OcrItem.truthy, OcrItem.pyLen, hsim]
  refine ⟨by rw [hstep], ?_⟩
  have hlen : i + 1 ≤ items.length := le_trans hι (le_of_lt hj)
  rw [runItems_decomp items hlen, foldl_processItem_decomp]
  simp only [List.map_append, List.mem_append]
  exact Or.inl hkept

/-- Witness for the amended C3: the second occurrence of `abab` is
discarded and the first stays in the final rows. -/
theorem c3_witness :
    (runItems exItems2 (1 + 1)).1 = (runItems exItems2 1).1 ∧
      "abab" ∈ (runItems exItems2 exItems2.length).1.map Row.text :=
  c3_later_duplicate_discarded exItems2 0 1 [] "abab" 1 [] "abab" 1
    (by decide) (by decide) rfl rfl (by decide) (by rw [ratio_abab]; norm_num)

/-- C4: `process_media` runs the image pipeline exactly when the
lowercased extension is one of `.jpg`, `.jpeg`, `.png`, `.bmp`; for every
video extension it takes the warning branch, and for every non-image
extension it returns no annotated image together with an empty row list,
performing no detection or OCR. -/
theorem c4_media_dispatch (input_path output_path : String) (imageBGR : Image)
    (boxes : List Box) (ocrFun : Image → OcrResult) :
    ((∃ run, process_media input_path imageBGR boxes ocrFun output_path =
        .processed run) ↔ lowerStr (splitext_ext input_path) ∈ imageExts) ∧
    (lowerStr (splitext_ext input_path) ∈ videoExts →
      process_media input_path imageBGR boxes ocrFun output_path =
        .videoUnsupported) ∧
    (lowerStr (splitext_ext input_path) ∉ imageExts →
      (process_media input_path imageBGR boxes ocrFun output_path).ret =
        (none, [])) := by
  unfold process_media
  by_cases h : lowerStr (splitext_ext input_path) ∈ imageExts
  · rw [if_pos h]
    refine ⟨⟨fun _ => h, fun _ => ⟨_, rfl⟩⟩, ?_, ?_⟩
    · intro hv
      exact absurd h (video_not_image _ hv)
    · intro hni
      exact absurd h hni
  · rw [if_neg h]
    by_cases hv : lowerStr (splitext_ext input_path) ∈ videoExts
    · rw [if_pos hv]
      exact ⟨⟨fun ⟨r, hr⟩ => MediaResult.noConfusion hr, fun hi => absurd hi h⟩,
        fun _ => rfl, fun _ => rfl⟩
    · rw [if_neg hv]
      exact ⟨⟨fun ⟨r, hr⟩ => MediaResult.noConfusion hr, fun hi => absurd hi h⟩,
        fun hv' => absurd hv' hv, fun _ => rfl⟩

/-- Witness for C4: an uppercase video extension takes the warning branch
and yields no image and no rows. -/
theorem c4_witness :
    process_media "video.MP4" cImg [cBox] cOcr "out" = .videoUnsupported ∧
      (process_media "video.MP4" cImg [cBox] cOcr "out").ret = (none, []) :=
  ⟨(c4_media_dispatch "video.MP4" "out" cImg [cBox] cOcr).2.1 (by decide),
   (c4_media_dispatch "video.MP4" "out" cImg [cBox] cOcr).2.2
     (video_not_image _ (by decide))⟩

/-- C5: `process_image` writes the annotated image at the supplied output
path and returns exactly that path paired with the rows accumulated over
the boxes in processing order (the box-by-box recursion `rowsFrom` with
the seen set threaded through). -/
theorem c5_process_image_output (imageBGR : Image) (boxes : List Box)
    (ocrFun : Image → OcrResult) (output_path : String) :
    (process_image imageBGR boxes ocrFun output_path).retPath = output_path ∧
    (process_image imageBGR boxes ocrFun output_path).writtenPath = output_path ∧
    (process_image imageBGR boxes ocrFun output_path).writtenImage =
      cvtColor (drawAll (cvtColor imageBGR) boxes) ∧
    (process_image imageBGR boxes ocrFun output_path).rows =
      rowsFrom ocrFun (cvtColor imageBGR) [] boxes := by
  refine ⟨?_, ?_, ?_, ?_⟩ <;>
    simp only [process_image, foldl_processBox_eq, List.nil_append]

/-- C6: every returned row pairs the text of one well-formed item of the
result of the engine with the confidence of that same item (formatted as a
percentage): neither field is substituted from elsewhere. -/
theorem c6_rows_from_engine (r : OcrResult) (s : List String) (row : Row)
    (h : row ∈ (extract_text_from_region r s).1) :
    ∃ b t c, OcrItem.cell b t c ∈ flatItems r ∧
      row.text = t ∧ row.conf = formatPercent c := by
  rw [extract_eq_foldl] at h
  rcases rows_source (flatItems r) ([], s) row h with hmem | ⟨b, t, c, hin, rfl⟩
  · exact absurd hmem (List.not_mem_nil row)
  · exact ⟨b, t, c, hin, rfl, rfl⟩

/-- Witness for C6 at a concrete one-item result. -/
theorem c6_witness :
    ∃ b t c, OcrItem.cell b t c ∈ flatItems exResult6 ∧
      (Row.mk "AB12CD" (formatPercent (9 / 10))).text = t ∧
      (Row.mk "AB12CD" (formatPercent (9 / 10))).conf = formatPercent c :=
  c6_rows_from_engine exResult6 [] ⟨"AB12CD", formatPercent (9 / 10)⟩
    (List.mem_cons_self _ _)

/-- C7: the duplicate verdict of `is_similar` depends only on which texts
are members of the seen set — not on its iteration order — and, for fixed
detector and OCR outputs, the extraction returns identical row lists for
any two seen sets with the same members, so two runs of the pipeline
agree. -/
theorem c7_membership_determines (t : String) (s s' : List String)
    (r : OcrResult) (h : ∀ x, x ∈ s ↔ x ∈ s') :
    is_similar t s = is_similar t s' ∧
      (extract_text_from_region r s).1 = (extract_text_from_region r s').1 := by
  refine ⟨is_similar_mem_congr t s s' 0.85 h, ?_⟩
  rw [extract_eq_foldl, extract_eq_foldl]
  exact (foldl_processItem_mem_congr (flatItems r) ([], s) ([], s') rfl h).1

/-- Witness for C7 at two reorderings of the same seen set. -/
theorem c7_witness :
    is_similar "w" ["u", "v"] = is_similar "w" ["v", "u", "u"] ∧
      (extract_text_from_region none ["u", "v"]).1 =
        (extract_text_from_region none ["v", "u", "u"]).1 :=
  c7_membership_determines "w" ["u", "v"] ["v", "u", "u"] none
    (by
      intro x
      simp only [List.mem_cons, List.not_mem_nil, or_false]
      tauto)

/-- C8: an empty or whitespace-only text is never among the returned rows
and is never added to the seen set, whether or not it is similar to a
previously seen text. -/
theorem c8_whitespace_excluded (r : OcrResult) (s : List String) (t : String)
    (h : stripTruthy t = false) :
    (∀ row ∈ (extract_text_from_region r s).1, row.text ≠ t) ∧
      (t ∈ (extract_text_from_region r s).2 → t ∈ s) := by
  rw [extract_eq_foldl]
  have hz : ∀ q ∈ (([] : List Row), s).1, stripTruthy q.text = true :=
    fun q hq => absurd hq (List.not_mem_nil q)
  constructor
  · intro row hrow heq
    have hst := rows_stripTruthy (flatItems r) ([], s) hz row hrow
    rw [heq, h] at hst
    exact Bool.false_ne_true hst
  · intro ht
    rcases (seen_eq_texts (flatItems r) s t).mp ht with hs | htext
    · exact hs
    · obtain ⟨row, hrow, heq⟩ := List.mem_map.mp htext
      have hst := rows_stripTruthy (flatItems r) ([], s) hz row hrow
      rw [heq, h] at hst
      exact absurd hst Bool.false_ne_true

/-- Witness for C8 at a result holding a whitespace-only text. -/
theorem c8_witness :
    stripTruthy " " = false ∧
      ((∀ row ∈ (extract_text_from_region exResult8 []).1, row.text ≠ " ") ∧
        (" " ∈ (extract_text_from_region exResult8 []).2 →
          " " ∈ ([] : List String))) :=
  ⟨by decide, c8_whitespace_excluded exResult8 [] " " (by decide)⟩

/-- C9: after any prefix of a flat stream of OCR items, the seen set holds
exactly the texts emitted so far (duplicates and whitespace-only texts are
not added), and a well-formed, non-whitespace item whose text passes the
dissimilarity test against that set is itself kept. -/
theorem c9_seen_invariant (items : List OcrItem) (n : Nat)
    (b : List (ℚ × ℚ)) (t : String) (c : ℚ) :
    (∀ x, x ∈ (runItems items n).2 ↔ x ∈ (runItems items n).1.map Row.text) ∧
      (items.getD n .null = .cell b t c → n < items.length →
        is_similar t (runItems items n).2 = false → stripTruthy t = true →
        t ∈ (runItems items (n + 1)).1.map Row.text) := by
  constructor
  · intro x
    unfold runItems
    rw [seen_eq_texts]
    simp
  · intro hget hn hsim hstrip
    rw [runItems_succ items n hn, hget]
    have hstep : processItem (runItems items n) (.cell b t c) =
        ((runItems items n).1 ++ [⟨t, formatPercent c⟩],
          addSeen (runItems items n).2 t) := by
      simp [processItem, OcrItem.truthy, OcrItem.pyLen, hsim, hstrip]
    rw [hstep]
    simp

/-- Witness for C9: a fresh text is kept and lands in the emitted rows. -/
theorem c9_witness :
    "XY" ∈ (runItems [OcrItem.cell [] "XY" 1] (0 + 1)).1.map Row.text :=
  (c9_seen_invariant [OcrItem.cell [] "XY" 1] 0 [] "XY" 1).2 rfl (by decide)
    rfl (by decide)

/-- C10: `extract_text_from_region` is total over malformed engine output:
falsy results, `None` or empty lines, falsy items and items of the wrong
arity are all skipped, and the extraction equals the same loop run over
just the well-formed items. -/
theorem c10_malformed_skipped (r : OcrResult) (s : List String)
    (h : wellShaped r = true) :
    extract_text_from_region r s = (cellsOf r).foldl processCell ([], s) := by
  rw [extract_eq_foldl, cellsOf]
  exact foldl_processItem_eq_cells (flatItems r) ([], s) (flatItems_shaped r h)

/-- Witness for C10 at a result with `None` lines, an empty line, a falsy
item and a wrong-arity item around one well-formed item. -/
theorem c10_witness :
    wellShaped exResult10 = true ∧
      extract_text_from_region exResult10 [] =
        (cellsOf exResult10).foldl processCell ([], []) :=
  ⟨by decide, c10_malformed_skipped exResult10 [] (by decide)⟩

end App

